import Mathlib

/-
  Verification development for the planetarium dome-master camera kernel
  (Ch_04_A_Planetarium_Dome_Master_Camera/dome_master_camera.cu).

  The CUDA kernel `camera_dome_general<STEREO_ON, DOF_ON>` is embedded
  shallowly: float arithmetic is modelled over the reals, the external
  collaborators from the missing `boilerplate.cuh` (jitter_offset2f,
  rtTrace, dof_ray) are function-valued parameters of the environment,
  and the calls to `rtTrace` and `accumulate_color` are recorded as an
  event list so that call-count and call-order properties can be stated.
-/

namespace DomeCam

noncomputable section

/-- Two-component float vector, the CUDA `float2`, modelled over ℝ. -/
@[ext]
structure Vec2 where
  x : ℝ
  y : ℝ

instance : Add Vec2 := ⟨fun a b => ⟨a.x + b.x, a.y + b.y⟩⟩
instance : Sub Vec2 := ⟨fun a b => ⟨a.x - b.x, a.y - b.y⟩⟩

/-- Componentwise product, the CUDA `float2` `operator*`. -/
instance : Mul Vec2 := ⟨fun a b => ⟨a.x * b.x, a.y * b.y⟩⟩

instance : SMul ℝ Vec2 := ⟨fun c v => ⟨c * v.x, c * v.y⟩⟩

/-- Three-component float vector, the CUDA `float3`, modelled over ℝ. -/
@[ext]
structure Vec3 where
  x : ℝ
  y : ℝ
  z : ℝ

instance : Add Vec3 := ⟨fun a b => ⟨a.x + b.x, a.y + b.y, a.z + b.z⟩⟩
instance : SMul ℝ Vec3 := ⟨fun c v => ⟨c * v.x, c * v.y, c * v.z⟩⟩

/-- The CUDA `make_float3(0.0f)`. -/
def Vec3.zero : Vec3 := ⟨0, 0, 0⟩

/-- Dot product of two `float3` values. -/
def dotV3 (a b : Vec3) : ℝ := a.x * b.x + a.y * b.y + a.z * b.z

/-- Cross product of two `float3` values, the CUDA `cross`. -/
def cross (a b : Vec3) : Vec3 :=
  ⟨a.y * b.z - a.z * b.y, a.z * b.x - a.x * b.z, a.x * b.y - a.y * b.x⟩

/-- The CUDA `powf(v, 5.0)` applied componentwise to a `float3`; for the
exponent 5.0 this is the componentwise fifth power. -/
def pow5c (v : Vec3) : Vec3 := ⟨v.x ^ 5, v.y ^ 5, v.z ^ 5⟩

/-- Reduction of an unsigned 32-bit C value: arithmetic modulo 2^32. -/
def u32 (n : ℕ) : ℕ := n % 4294967296

/-- Modelled from the spec: one Feistel round of the seed hash `tea` from the
missing `boilerplate.cuh` ("a small integer hash (4-round mix)"), the standard
TEA-based mix: with round constant `s0`,
`v0 += ((v1<<4)+0xa341316c) ^ (v1+s0) ^ ((v1>>5)+0xc8013ea4)` and then
`v1 += ((v0<<4)+0xad90777d) ^ (v0+s0) ^ ((v0>>5)+0x7e95761e)`, in unsigned
32-bit arithmetic. -/
def teaStep (s0 : ℕ) (p : ℕ × ℕ) : ℕ × ℕ :=
  let w0 := u32 (p.1 +
    Nat.xor (Nat.xor (u32 (p.2 * 16 + 2738958700)) (u32 (p.2 + s0)))
      (u32 (p.2 / 32 + 3355524772)))
  let w1 := u32 (p.2 +
    Nat.xor (Nat.xor (u32 (w0 * 16 + 2911926141)) (u32 (w0 + s0)))
      (u32 (w0 / 32 + 2123724318)))
  (w0, w1)

/-- Modelled from the spec: the 4-round hash `tea<4>(val0, val1)` from the
missing `boilerplate.cuh`; the round constant accumulates the golden-ratio
word `0x9e3779b9` modulo 2^32 each round, and the hash returns the final
first word. -/
def tea4 (val0 val1 : ℕ) : ℕ :=
  (teaStep 2027808484
    (teaStep 3668340011
      (teaStep 1013904242
        (teaStep 2654435769 (u32 val0, u32 val1))))).1

/-- Host-provided constants and external collaborators visible to the kernel:
the launch index/dimension, the camera basis (`cam_U` right, `cam_V` up,
`cam_W` forward) and position, the stereo eye separation, the per-frame
counter `subframe_count()`, and the external routines `jitter_offset2f`
(draws a 2D offset and advances the seed), `rtTrace` (returns the payload's
result color and alpha for a ray), and `dof_ray` (perturbs origin and
direction, consuming randomness). -/
structure Env where
  launch_dim_x : ℕ
  launch_dim_y : ℕ
  launch_index_x : ℕ
  launch_index_y : ℕ
  aa_samples : ℕ
  cam_pos : Vec3
  cam_U : Vec3
  cam_V : Vec3
  cam_W : Vec3
  cam_stereo_eyesep : ℝ
  subframe : ℕ
  jitter : ℕ → Vec2 × ℕ
  traceResult : Vec3 → Vec3 → Vec3 × ℝ
  dofRay : Vec3 → Vec3 → ℕ → Vec3 → Vec3 → Vec3 × Vec3 × ℕ

/-- Calls the kernel makes to its external collaborators: one `rtTrace`
submission per in-FoV sample, and the final `accumulate_color`. -/
inductive Event where
  | traceCall (origin direction : Vec3)
  | accumulateCall (col : Vec3) (alpha : ℝ)

/-- Decides whether an event is the accumulation call. -/
def isAccum : Event → Bool
  | Event.accumulateCall _ _ => true
  | Event.traceCall _ _ => false

/-- State threaded through the anti-aliasing sample loop: the random seed,
the color and alpha accumulators, and the emitted external-call events. -/
structure LoopState where
  seed : ℕ
  col : Vec3
  alpha : ℝ
  events : List Event

/-- The fixed dome field of view in degrees (`float fov = 180.0f`). -/
def fovDeg : ℝ := 180

/-- Half the FoV in radians (`float rmax = 0.5 * fov * (M_PIf / 180.0f)`). -/
def rmaxVal : ℝ := 0.5 * fovDeg * (Real.pi / 180)

/-- The C `hypotf`: Euclidean norm of a 2D vector given componentwise. -/
def hypotf (a b : ℝ) : ℝ := Real.sqrt (a ^ 2 + b ^ 2)

/-- Radians-per-pixel scale factors
(`float2 radperpix = (M_PIf / 180.0f) * fov / viewport_sz`), componentwise
over the viewport size. -/
def radperpixOf (fov : ℝ) (vs : Vec2) : Vec2 :=
  ⟨Real.pi / 180 * fov / vs.x, Real.pi / 180 * fov / vs.y⟩

/-- The ray angles in X/Y
(`float2 rd = (viewport_idx - viewport_mid) * radperpix`). -/
def rdOf (viewport_idx viewport_mid radperpix : Vec2) : Vec2 :=
  (viewport_idx - viewport_mid) * radperpix

/-- The angular distance from the dome center
(`float rangle = hypotf(rd.x, rd.y)`). -/
def rangleOf (rd : Vec2) : ℝ := hypotf rd.x rd.y

/-- Stereo viewport partition (lines 28-47 of the kernel): with stereo on,
the viewport height is the half frame height `launch_dim.y >> 1`; an index in
the upper half is the left image with local y shifted down and eyeshift
`-0.5f * cam_stereo_eyesep`, an index in the lower half is the right image
with eyeshift `0.5f * cam_stereo_eyesep`. Returns
(viewport_sz_y, viewport_idx_y, eyeshift). -/
def stereoSetup (stereo : Bool) (env : Env) : ℕ × ℕ × ℝ :=
  if stereo then
    let vsy := env.launch_dim_y / 2
    if env.launch_index_y ≥ vsy then
      (vsy, env.launch_index_y - vsy, -0.5 * env.cam_stereo_eyesep)
    else
      (vsy, env.launch_index_y, 0.5 * env.cam_stereo_eyesep)
  else
    (env.launch_dim_y, env.launch_index_y, 0)

/-- The viewport size `float2 viewport_sz = make_float2(launch_dim.x, viewport_sz_y)`. -/
def viewportSzOf (stereo : Bool) (env : Env) : Vec2 :=
  ⟨(env.launch_dim_x : ℝ), ((stereoSetup stereo env).1 : ℝ)⟩

/-- The viewport midpoint `float2 viewport_mid = viewport_sz * 0.5f`. -/
def vmidOf (stereo : Bool) (env : Env) : Vec2 :=
  (0.5 : ℝ) • viewportSzOf stereo env

/-- The radians-per-pixel factors of the kernel for a given stereo mode. -/
def rppOf (stereo : Bool) (env : Env) : Vec2 :=
  radperpixOf fovDeg (viewportSzOf stereo env)

/-- The per-pixel random seed
(`tea<4>(launch_dim.x*(launch_index.y)+launch_index.x, subframe_count())`);
note it uses the global `launch_index.y`, not the stereo-local row. -/
def randseedOf (env : Env) : ℕ :=
  tea4 (env.launch_dim_x * env.launch_index_y + env.launch_index_x) env.subframe

/-- Construction of the per-sample ray (lines 82-108 of the kernel): origin
starts at `cam_pos`; at `rangle == 0` the direction is the forward axis
`cam_W` and neither the stereo shift nor the DOF perturbation applies;
otherwise the equidistant fisheye direction is built from `sincosf(rangle)`,
the stereo variant shifts the origin by
`eyeshift * powf(cross(ray_direction, cam_W), 5.0)`, and the DOF variant
passes origin and direction through the external `dof_ray`. Returns
(ray_origin, ray_direction, seed after any DOF draws). -/
def sampleRay (stereo dof : Bool) (env : Env) (eyeshift : ℝ) (rd : Vec2)
    (seed : ℕ) : Vec3 × Vec3 × ℕ :=
  let ray_origin := env.cam_pos
  let rangle := rangleOf rd
  if rangle = 0 then
    (ray_origin, env.cam_W, seed)
  else
    let rasin := Real.sin rangle
    let racos := Real.cos rangle
    let rsin := rasin / rangle
    let rcos := racos / rangle
    let ray_direction :=
      (rsin * rd.x) • env.cam_U + (rsin * rd.y) • env.cam_V + racos • env.cam_W
    let up_direction :=
      (-(rcos * rd.x)) • env.cam_U + (-(rcos * rd.y)) • env.cam_V + rasin • env.cam_W
    let right_direction :=
      (rd.y / rangle) • env.cam_U + (-(rd.x / rangle)) • env.cam_V
    let origin2 :=
      if stereo then
        ray_origin + eyeshift • pow5c (cross ray_direction env.cam_W)
      else ray_origin
    if dof then env.dofRay origin2 ray_direction seed up_direction right_direction
    else (origin2, ray_direction, seed)

/-- One iteration of the anti-aliasing sample loop (lines 69-121): draw the
jitter offset (advancing the seed), form the jittered viewport coordinate,
compute `rd` and `rangle`; a sample with `rangle < rmax` builds its ray,
submits it to the tracer and adds the returned color and alpha to the
accumulators, while a sample outside the FoV contributes nothing. -/
def sampleIter (stereo dof : Bool) (env : Env) (vidxY : ℕ) (eyeshift : ℝ)
    (vmid rpp : Vec2) (st : LoopState) : LoopState :=
  let drawn := env.jitter st.seed
  let viewport_idx : Vec2 := Vec2.mk (env.launch_index_x : ℝ) (vidxY : ℝ) + drawn.1
  let rd := rdOf viewport_idx vmid rpp
  let rangle := rangleOf rd
  if rangle < rmaxVal then
    let r := sampleRay stereo dof env eyeshift rd drawn.2
    let tr := env.traceResult r.1 r.2.1
    ⟨r.2.2, st.col + tr.1, st.alpha + tr.2,
      st.events ++ [Event.traceCall r.1 r.2.1]⟩
  else
    ⟨drawn.2, st.col, st.alpha, st.events⟩

/-- The loop state before the first sample: the hashed seed, zero
accumulators, no external calls yet. -/
def initState (seed : ℕ) : LoopState := ⟨seed, Vec3.zero, 0, []⟩

/-- The sample loop of `camera_dome_general`, run for `aa_samples`
iterations from the initial state. -/
def domeLoop (stereo dof : Bool) (env : Env) : LoopState :=
  (sampleIter stereo dof env (stereoSetup stereo env).2.1
      (stereoSetup stereo env).2.2 (vmidOf stereo env) (rppOf stereo env))^[env.aa_samples]
    (initState (randseedOf env))

/-- The full kernel `camera_dome_general<STEREO_ON, DOF_ON>`: the sample
loop followed by the single `accumulate_color(col, alpha)` call. -/
def camera_dome_general (stereo dof : Bool) (env : Env) : LoopState :=
  let fin := domeLoop stereo dof env
  ⟨fin.seed, fin.col, fin.alpha,
    fin.events ++ [Event.accumulateCall fin.col fin.alpha]⟩

/-- Template instantiation `camera_dome_general<0, 0>`. -/
def camera_dome_master (env : Env) : LoopState :=
  camera_dome_general false false env

/-- Template instantiation `camera_dome_general<0, 1>`. -/
def camera_dome_master_dof (env : Env) : LoopState :=
  camera_dome_general false true env

/-- Template instantiation `camera_dome_general<1, 0>`. -/
def camera_dome_master_stereo (env : Env) : LoopState :=
  camera_dome_general true false env

/-- Template instantiation `camera_dome_general<1, 1>`. -/
def camera_dome_master_stereo_dof (env : Env) : LoopState :=
  camera_dome_general true true env

/-- Orthonormality of the camera basis (right `U`, up `V`, forward `W`),
as the spec's data model states it. -/
def OrthonormalBasis (U V W : Vec3) : Prop :=
  dotV3 U U = 1 ∧ dotV3 V V = 1 ∧ dotV3 W W = 1 ∧
  dotV3 U V = 0 ∧ dotV3 U W = 0 ∧ dotV3 V W = 0

/-- Seed advance of one jitter draw (`jitter_offset2f` updates the seed). -/
def seedAdvance (env : Env) (s : ℕ) : ℕ := (env.jitter s).2

/-- The radian-scaled offset `rd` of the sample drawn at seed `s`: the
jittered viewport coordinate minus the viewport midpoint, componentwise
times the radians-per-pixel factors. -/
def sampleRd (env : Env) (vidxY : ℕ) (vmid rpp : Vec2) (s : ℕ) : Vec2 :=
  rdOf (Vec2.mk (env.launch_index_x : ℝ) (vidxY : ℝ) + (env.jitter s).1) vmid rpp

/-- Concrete test environment: pixel (0, 0) of a 2x2 mono frame, the standard
camera basis at the origin, jitter draws that always return (0, 0) and
increment the seed, a tracer returning white with alpha one. -/
def envA : Env :=
  ⟨2, 2, 0, 0, 4, ⟨0, 0, 0⟩, ⟨1, 0, 0⟩, ⟨0, 1, 0⟩, ⟨0, 0, 1⟩, 0, 0,
    fun s => (⟨0, 0⟩, s + 1), fun _ _ => (⟨1, 1, 1⟩, 1), fun o d s _ _ => (o, d, s)⟩

/-- Concrete test environment: as `envA` but the jitter draw returns
(9/10, 9/10) and leaves the seed unchanged. -/
def envB : Env :=
  ⟨2, 2, 0, 0, 1, ⟨0, 0, 0⟩, ⟨1, 0, 0⟩, ⟨0, 1, 0⟩, ⟨0, 0, 1⟩, 0, 0,
    fun s => (⟨9 / 10, 9 / 10⟩, s), fun _ _ => (⟨1, 1, 1⟩, 1), fun o d s _ _ => (o, d, s)⟩

/-- Concrete test environment: pixel (1, 1) of a 2x2 mono frame with zero
jitter, so the single sample lands exactly at the dome center. -/
def envC : Env :=
  ⟨2, 2, 1, 1, 1, ⟨0, 0, 0⟩, ⟨1, 0, 0⟩, ⟨0, 1, 0⟩, ⟨0, 0, 1⟩, 0, 0,
    fun s => (⟨0, 0⟩, s), fun _ _ => (⟨1, 1, 1⟩, 1), fun o d s _ _ => (o, d, s)⟩

/-- Concrete test environment for the stereo partition: a double-high 2x4
frame (half height 2), pixel (0, 0) in the lower half, eye separation 1. -/
def envS : Env :=
  ⟨2, 4, 0, 0, 1, ⟨0, 0, 0⟩, ⟨1, 0, 0⟩, ⟨0, 1, 0⟩, ⟨0, 0, 1⟩, 1, 0,
    fun s => (⟨0, 0⟩, s + 1), fun _ _ => (⟨1, 1, 1⟩, 1), fun o d s _ _ => (o, d, s)⟩

/-- Concrete test environment for the seed hash: a 1x1 frame, pixel (0, 0),
frame counter 26601. -/
def envT1 : Env :=
  ⟨1, 1, 0, 0, 1, ⟨0, 0, 0⟩, ⟨1, 0, 0⟩, ⟨0, 1, 0⟩, ⟨0, 0, 1⟩, 0, 26601,
    fun s => (⟨0, 0⟩, s + 1), fun _ _ => (⟨1, 1, 1⟩, 1), fun o d s _ _ => (o, d, s)⟩

/-- Concrete test environment: as `envT1` but with frame counter 62756. -/
def envT2 : Env :=
  ⟨1, 1, 0, 0, 1, ⟨0, 0, 0⟩, ⟨1, 0, 0⟩, ⟨0, 1, 0⟩, ⟨0, 0, 1⟩, 0, 62756,
    fun s => (⟨0, 0⟩, s + 1), fun _ _ => (⟨1, 1, 1⟩, 1), fun o d s _ _ => (o, d, s)⟩

end

@[simp] lemma add_x2 (a b : Vec2) : (a + b).x = a.x + b.x := rfl

@[simp] lemma add_y2 (a b : Vec2) : (a + b).y = a.y + b.y := rfl

@[simp] lemma sub_x2 (a b : Vec2) : (a - b).x = a.x - b.x := rfl

@[simp] lemma sub_y2 (a b : Vec2) : (a - b).y = a.y - b.y := rfl

@[simp] lemma mul_x2 (a b : Vec2) : (a * b).x = a.x * b.x := rfl

@[simp] lemma mul_y2 (a b : Vec2) : (a * b).y = a.y * b.y := rfl

@[simp] lemma smul_x2 (c : ℝ) (v : Vec2) : (c • v).x = c * v.x := rfl

@[simp] lemma smul_y2 (c : ℝ) (v : Vec2) : (c • v).y = c * v.y := rfl

@[simp] lemma add_x3 (a b : Vec3) : (a + b).x = a.x + b.x := rfl

@[simp] lemma add_y3 (a b : Vec3) : (a + b).y = a.y + b.y := rfl

@[simp] lemma add_z3 (a b : Vec3) : (a + b).z = a.z + b.z := rfl

@[simp] lemma smul_x3 (c : ℝ) (v : Vec3) : (c • v).x = c * v.x := rfl

@[simp] lemma smul_y3 (c : ℝ) (v : Vec3) : (c • v).y = c * v.y := rfl

@[simp] lemma smul_z3 (c : ℝ) (v : Vec3) : (c • v).z = c * v.z := rfl

lemma rmax_eq : rmaxVal = Real.pi / 2 := by
  unfold rmaxVal fovDeg
  ring

lemma rangle_nonneg (rd : Vec2) : 0 ≤ rangleOf rd := Real.sqrt_nonneg _

lemma sampleRay_center (stereo dof : Bool) (env : Env) (es : ℝ) (rd : Vec2)
    (s : ℕ) (h : rangleOf rd = 0) :
    sampleRay stereo dof env es rd s = (env.cam_pos, env.cam_W, s) := by
  simp [sampleRay, h]

lemma sampleRay_seed_nodof (stereo : Bool) (env : Env) (es : ℝ) (rd : Vec2)
    (s : ℕ) : (sampleRay stereo false env es rd s).2.2 = s := by
  by_cases h : rangleOf rd = 0 <;> simp [sampleRay, h]

lemma sampleRay_origin_nn (env : Env) (es : ℝ) (rd : Vec2) (s : ℕ) :
    (sampleRay false false env es rd s).1 = env.cam_pos := by
  by_cases h : rangleOf rd = 0 <;> simp [sampleRay, h]

lemma sampleRay_dir_nodof (stereo : Bool) (env : Env) (es : ℝ) (rd : Vec2)
    (s : ℕ) (h : rangleOf rd ≠ 0) :
    (sampleRay stereo false env es rd s).2.1 =
      (Real.sin (rangleOf rd) / rangleOf rd * rd.x) • env.cam_U +
      (Real.sin (rangleOf rd) / rangleOf rd * rd.y) • env.cam_V +
      Real.cos (rangleOf rd) • env.cam_W := by
  simp [sampleRay, h]

lemma sampleIter_excluded (stereo dof : Bool) (env : Env) (vidxY : ℕ)
    (es : ℝ) (vmid rpp : Vec2) (st : LoopState)
    (h : rmaxVal ≤ rangleOf (sampleRd env vidxY vmid rpp st.seed)) :
    sampleIter stereo dof env vidxY es vmid rpp st =
      ⟨(env.jitter st.seed).2, st.col, st.alpha, st.events⟩ := by
  rw [sampleRd, rdOf] at h
  simp [sampleIter, rdOf, not_lt.2 h]

lemma sampleIter_seed_nodof (stereo : Bool) (env : Env) (vidxY : ℕ)
    (es : ℝ) (vmid rpp : Vec2) (st : LoopState) :
    (sampleIter stereo false env vidxY es vmid rpp st).seed =
      seedAdvance env st.seed := by
  by_cases h : rangleOf (sampleRd env vidxY vmid rpp st.seed) < rmaxVal <;>
    rw [sampleRd, rdOf] at h <;>
    simp [sampleIter, rdOf, seedAdvance, h, sampleRay_seed_nodof]

lemma sampleIter_events_cases (stereo dof : Bool) (env : Env) (vidxY : ℕ)
    (es : ℝ) (vmid rpp : Vec2) (st : LoopState) :
    (sampleIter stereo dof env vidxY es vmid rpp st).events = st.events ∨
    ∃ o d, (sampleIter stereo dof env vidxY es vmid rpp st).events =
      st.events ++ [Event.traceCall o d] := by
  by_cases h : rangleOf (sampleRd env vidxY vmid rpp st.seed) < rmaxVal <;>
    rw [sampleRd, rdOf] at h <;> simp [sampleIter, rdOf, h]

lemma sampleIter_events_nn (env : Env) (vidxY : ℕ) (es : ℝ)
    (vmid rpp : Vec2) (st : LoopState) :
    (sampleIter false false env vidxY es vmid rpp st).events = st.events ∨
    ∃ d, (sampleIter false false env vidxY es vmid rpp st).events =
      st.events ++ [Event.traceCall env.cam_pos d] := by
  by_cases h : rangleOf (sampleRd env vidxY vmid rpp st.seed) < rmaxVal <;>
    rw [sampleRd, rdOf] at h <;> simp [sampleIter, rdOf, h]
  exact sampleRay_origin_nn env es _ _

lemma loop_excluded (stereo dof : Bool) (env : Env) (vidxY : ℕ) (es : ℝ)
    (vmid rpp : Vec2)
    (hall : ∀ s : ℕ, rmaxVal ≤ rangleOf (sampleRd env vidxY vmid rpp s)) :
    ∀ (n : ℕ) (st : LoopState),
      ((sampleIter stereo dof env vidxY es vmid rpp)^[n] st).col = st.col ∧
      ((sampleIter stereo dof env vidxY es vmid rpp)^[n] st).alpha = st.alpha ∧
      ((sampleIter stereo dof env vidxY es vmid rpp)^[n] st).events = st.events := by
  intro n
  induction n with
  | zero => intro st; simp
  | succ n ih =>
      intro st
      rw [Function.iterate_succ_apply,
        sampleIter_excluded stereo dof env vidxY es vmid rpp st (hall st.seed)]
      simpa using ih ⟨(env.jitter st.seed).2, st.col, st.alpha, st.events⟩

lemma loop_trace_origin (env : Env) (vidxY : ℕ) (es : ℝ) (vmid rpp : Vec2) :
    ∀ (n : ℕ) (st : LoopState) (o d : Vec3),
      Event.traceCall o d ∈
        ((sampleIter false false env vidxY es vmid rpp)^[n] st).events →
      Event.traceCall o d ∈ st.events ∨ o = env.cam_pos := by
  intro n
  induction n with
  | zero => intro st o d h; simpa using Or.inl h
  | succ n ih =>
      intro st o d h
      rw [Function.iterate_succ_apply] at h
      rcases ih _ o d h with hmem | hO
      · rcases sampleIter_events_nn env vidxY es vmid rpp st with heq | ⟨d2, heq⟩
        · rw [heq] at hmem; exact Or.inl hmem
        · rw [heq] at hmem
          rcases List.mem_append.1 hmem with h1 | h2
          · exact Or.inl h1
          · simp only [List.mem_singleton, Event.traceCall.injEq] at h2
            exact Or.inr h2.1
      · exact Or.inr hO

lemma loop_noaccum (stereo dof : Bool) (env : Env) (vidxY : ℕ) (es : ℝ)
    (vmid rpp : Vec2) :
    ∀ (n : ℕ) (st : LoopState),
      (∀ e ∈ st.events, isAccum e = false) →
      ∀ e ∈ ((sampleIter stereo dof env vidxY es vmid rpp)^[n] st).events,
        isAccum e = false := by
  intro n
  induction n with
  | zero => intro st hst; simpa using hst
  | succ n ih =>
      intro st hst
      rw [Function.iterate_succ_apply]
      refine ih _ ?_
      rcases sampleIter_events_cases stereo dof env vidxY es vmid rpp st with
        heq | ⟨o, d, heq⟩ <;> rw [heq]
      · exact hst
      · intro e he
        rcases List.mem_append.1 he with h1 | h2
        · exact hst e h1
        · simp only [List.mem_singleton] at h2
          rw [h2]
          rfl

lemma loop_seed_nodof (stereo : Bool) (env : Env) (vidxY : ℕ) (es : ℝ)
    (vmid rpp : Vec2) :
    ∀ (n : ℕ) (st : LoopState),
      ((sampleIter stereo false env vidxY es vmid rpp)^[n] st).seed =
        (seedAdvance env)^[n] st.seed := by
  intro n
  induction n with
  | zero => intro st; simp
  | succ n ih =>
      intro st
      rw [Function.iterate_succ_apply, Function.iterate_succ_apply]
      rw [ih _, sampleIter_seed_nodof]

lemma dotV3_comm (a b : Vec3) : dotV3 a b = dotV3 b a := by
  unfold dotV3
  ring

lemma dotV3_comb (a b c : ℝ) (U V W X : Vec3) :
    dotV3 (a • U + b • V + c • W) X =
      a * dotV3 U X + b * dotV3 V X + c * dotV3 W X := by
  simp [dotV3]
  ring

lemma rangle_zero_vec : rangleOf ⟨0, 0⟩ = 0 := by
  simp [rangleOf, hypotf]

lemma rangle_unit_x : rangleOf ⟨1, 0⟩ = 1 := by
  simp [rangleOf, hypotf]

lemma rangle_unit_y : rangleOf ⟨0, 1⟩ = 1 := by
  simp [rangleOf, hypotf]

lemma one_lt_rmax : 1 < rmaxVal := by
  rw [rmax_eq]
  nlinarith [Real.pi_gt_three]

lemma vmidA : vmidOf false envA = ⟨1, 1⟩ := by
  simp [vmidOf, viewportSzOf, stereoSetup, envA]
  ext <;> simp <;> norm_num

lemma rppA : rppOf false envA = ⟨Real.pi / 2, Real.pi / 2⟩ := by
  simp [rppOf, radperpixOf, viewportSzOf, stereoSetup, envA, fovDeg]

lemma rangleA_gt (s : ℕ) :
    rmaxVal < rangleOf (sampleRd envA 0 (vmidOf false envA) (rppOf false envA) s) := by
  rw [vmidA, rppA, rmax_eq]
  show Real.pi / 2 < rangleOf (rdOf (Vec2.mk ((0 : ℕ) : ℝ) ((0 : ℕ) : ℝ) + ⟨0, 0⟩) ⟨1, 1⟩ ⟨Real.pi / 2, Real.pi / 2⟩)
  rw [rdOf, rangleOf, hypotf]
  simp
  rw [Real.lt_sqrt (by positivity)]
  nlinarith [Real.pi_pos]

lemma hallA (s : ℕ) :
    rmaxVal ≤ rangleOf (sampleRd envA 0 (vmidOf false envA) (rppOf false envA) s) :=
  le_of_lt (rangleA_gt s)

lemma vmidB : vmidOf false envB = ⟨1, 1⟩ := by
  simp [vmidOf, viewportSzOf, stereoSetup, envB]
  ext <;> simp <;> norm_num

lemma rppB : rppOf false envB = ⟨Real.pi / 2, Real.pi / 2⟩ := by
  simp [rppOf, radperpixOf, viewportSzOf, stereoSetup, envB, fovDeg]

lemma rangleB_lt (s : ℕ) :
    rangleOf (sampleRd envB 0 (vmidOf false envB) (rppOf false envB) s) < rmaxVal := by
  rw [vmidB, rppB, rmax_eq]
  show rangleOf (rdOf (Vec2.mk ((0 : ℕ) : ℝ) ((0 : ℕ) : ℝ) + ⟨9 / 10, 9 / 10⟩) ⟨1, 1⟩
      ⟨Real.pi / 2, Real.pi / 2⟩) < Real.pi / 2
  rw [rdOf, rangleOf, hypotf]
  simp
  rw [Real.sqrt_lt' (by positivity)]
  nlinarith [Real.pi_pos]

lemma vmidC : vmidOf false envC = ⟨1, 1⟩ := by
  simp [vmidOf, viewportSzOf, stereoSetup, envC]
  ext <;> simp <;> norm_num

lemma rppC : rppOf false envC = ⟨Real.pi / 2, Real.pi / 2⟩ := by
  simp [rppOf, radperpixOf, viewportSzOf, stereoSetup, envC, fovDeg]

lemma rangleC_zero (s : ℕ) :
    rangleOf (sampleRd envC 1 (vmidOf false envC) (rppOf false envC) s) = 0 := by
  rw [vmidC, rppC]
  show rangleOf (rdOf (Vec2.mk ((1 : ℕ) : ℝ) ((1 : ℕ) : ℝ) + ⟨0, 0⟩) ⟨1, 1⟩
      ⟨Real.pi / 2, Real.pi / 2⟩) = 0
  rw [rdOf, rangleOf, hypotf]
  simp

lemma sampleIter_at_center (stereo dof : Bool) (env : Env) (vidxY : ℕ)
    (es : ℝ) (vmid rpp : Vec2) (st : LoopState)
    (h : rangleOf (sampleRd env vidxY vmid rpp st.seed) = 0) :
    sampleIter stereo dof env vidxY es vmid rpp st =
      ⟨(env.jitter st.seed).2,
       st.col + (env.traceResult env.cam_pos env.cam_W).1,
       st.alpha + (env.traceResult env.cam_pos env.cam_W).2,
       st.events ++ [Event.traceCall env.cam_pos env.cam_W]⟩ := by
  have hlt : rangleOf (sampleRd env vidxY vmid rpp st.seed) < rmaxVal := by
    rw [h, rmax_eq]
    exact Real.pi_div_two_pos
  have hray := sampleRay_center stereo dof env es
    (sampleRd env vidxY vmid rpp st.seed) (env.jitter st.seed).2 h
  rw [sampleRd, rdOf] at hlt hray
  simp [sampleIter, rdOf, hlt, hray]

lemma sampleIter_included (stereo dof : Bool) (env : Env) (vidxY : ℕ)
    (es : ℝ) (vmid rpp : Vec2) (st : LoopState)
    (h : rangleOf (sampleRd env vidxY vmid rpp st.seed) < rmaxVal) :
    (sampleIter stereo dof env vidxY es vmid rpp st).events =
      st.events ++ [Event.traceCall
        (sampleRay stereo dof env es (sampleRd env vidxY vmid rpp st.seed)
          (env.jitter st.seed).2).1
        (sampleRay stereo dof env es (sampleRd env vidxY vmid rpp st.seed)
          (env.jitter st.seed).2).2.1] := by
  rw [sampleRd, rdOf] at h ⊢
  simp [sampleIter, rdOf, h]

lemma domeLoopC :
    domeLoop false false envC =
      ⟨randseedOf envC, Vec3.zero + ⟨1, 1, 1⟩, 0 + 1,
        [Event.traceCall envC.cam_pos envC.cam_W]⟩ := by
  unfold domeLoop
  rw [show envC.aa_samples = 1 from rfl, Function.iterate_one]
  rw [show (stereoSetup false envC).2.1 = 1 from rfl,
    show (stereoSetup false envC).2.2 = (0 : ℝ) from rfl]
  rw [sampleIter_at_center false false envC 1 0 _ _ _ (rangleC_zero _)]
  rfl

lemma envC_trace_mem :
    Event.traceCall envC.cam_pos envC.cam_W ∈ (camera_dome_master envC).events := by
  have hev : (camera_dome_master envC).events =
      (domeLoop false false envC).events ++
        [Event.accumulateCall (domeLoop false false envC).col
          (domeLoop false false envC).alpha] := rfl
  rw [hev, domeLoopC]
  simp

/-- C1 (amended): with stereo enabled on a frame of height 2H, a pixel with
global y < H (lower half) is the right-eye sub-image, keeps its local
y-coordinate unchanged, and gets eye-shift `+0.5 * eye_separation`; a pixel
with global y >= H (upper half) is the left-eye sub-image, gets local
y = global y - H, and gets eye-shift `-0.5 * eye_separation`; either way the
local y-coordinate lies below H, so the two sub-images are disjoint H-height
halves. -/
theorem c1_stereo_partition (env : Env) (H : ℕ)
    (hdim : env.launch_dim_y = 2 * H) :
    (env.launch_index_y < H →
      stereoSetup true env =
        (H, env.launch_index_y, 0.5 * env.cam_stereo_eyesep)) ∧
    (H ≤ env.launch_index_y →
      stereoSetup true env =
        (H, env.launch_index_y - H, -0.5 * env.cam_stereo_eyesep)) ∧
    (env.launch_index_y < 2 * H → (stereoSetup true env).2.1 < H) := by
  have hH : env.launch_dim_y / 2 = H := by omega
  refine ⟨?_, ?_, ?_⟩
  · intro hy
    simp [stereoSetup, hH, Nat.not_le.2 hy]
  · intro hy
    simp [stereoSetup, hH, hy]
  · intro hy
    by_cases hcase : H ≤ env.launch_index_y
    · simp [stereoSetup, hH, hcase]
      omega
    · simp [stereoSetup, hH, hcase]
      omega

/-- C1 witness: the lower-half pixel (0, 0) of the 2x4 stereo frame `envS`
(half height 2) keeps its row and receives eye-shift `+0.5 * eyesep`. -/
theorem c1_stereo_partition_witness :
    envS.launch_dim_y = 2 * 2 ∧ envS.launch_index_y < 2 ∧
    stereoSetup true envS = (2, envS.launch_index_y, 0.5 * envS.cam_stereo_eyesep) :=
  ⟨rfl, by norm_num [envS], (c1_stereo_partition envS 2 rfl).1 (by norm_num [envS])⟩

/-- C1 counterexample: in the stereo frame `envS` (height 4, half height 2,
eye separation 1) the pixel with global y = 0 lies in the lower half, yet its
eye-shift is `+0.5 * eye_separation`, not `-0.5 * eye_separation` as the
claim states. -/
theorem c1_stereo_partition_cex :
    envS.launch_index_y < envS.launch_dim_y / 2 ∧
    (stereoSetup true envS).2.2 = 0.5 * envS.cam_stereo_eyesep ∧
    (stereoSetup true envS).2.2 ≠ -0.5 * envS.cam_stereo_eyesep := by
  refine ⟨by norm_num [envS], ?_, ?_⟩ <;> norm_num [stereoSetup, envS]

/-- C2: a sample whose angular distance from the dome center is at least
`rmax` contributes exactly zero color and zero alpha to the accumulators
(and submits no trace call), in every stereo/DOF variant. -/
theorem c2_out_of_fov_contributes_nothing (stereo dof : Bool) (env : Env)
    (vidxY : ℕ) (es : ℝ) (vmid rpp : Vec2) (st : LoopState)
    (h : rmaxVal ≤ rangleOf (sampleRd env vidxY vmid rpp st.seed)) :
    (sampleIter stereo dof env vidxY es vmid rpp st).col = st.col ∧
    (sampleIter stereo dof env vidxY es vmid rpp st).alpha = st.alpha ∧
    (sampleIter stereo dof env vidxY es vmid rpp st).events = st.events := by
  rw [sampleIter_excluded stereo dof env vidxY es vmid rpp st h]
  exact ⟨rfl, rfl, rfl⟩

/-- C2 witness: in `envA` (pixel (0, 0) of a 2x2 frame, zero jitter) the
sample lies at angular distance at least rmax and leaves the accumulators of
the stereo+DOF variant unchanged. -/
theorem c2_out_of_fov_contributes_nothing_witness :
    rmaxVal ≤ rangleOf (sampleRd envA 0 (vmidOf false envA) (rppOf false envA)
      (initState 7).seed) ∧
    (sampleIter true true envA 0 0 (vmidOf false envA) (rppOf false envA)
      (initState 7)).col = (initState 7).col ∧
    (sampleIter true true envA 0 0 (vmidOf false envA) (rppOf false envA)
      (initState 7)).alpha = (initState 7).alpha ∧
    (sampleIter true true envA 0 0 (vmidOf false envA) (rppOf false envA)
      (initState 7)).events = (initState 7).events :=
  ⟨hallA 7,
    c2_out_of_fov_contributes_nothing true true envA 0 0 _ _ _ (hallA 7)⟩

/-- C4: a sample with `rangle == 0` exactly generates the ray direction
`cam_W` (the camera forward axis) with unshifted origin and untouched seed,
in all four stereo/DOF variants: neither the stereo eye-shift nor the DOF
perturbation is applied to such a sample. -/
theorem c4_center_ray (stereo dof : Bool) (env : Env) (es : ℝ) (rd : Vec2)
    (s : ℕ) (h : rangleOf rd = 0) :
    sampleRay stereo dof env es rd s = (env.cam_pos, env.cam_W, s) :=
  sampleRay_center stereo dof env es rd s h

/-- C4 witness: at the zero offset the angular distance is zero and the
stereo+DOF variant returns the forward axis with the camera position. -/
theorem c4_center_ray_witness :
    rangleOf ⟨0, 0⟩ = 0 ∧
    sampleRay true true envA 1 ⟨0, 0⟩ 5 = (envA.cam_pos, envA.cam_W, 5) :=
  ⟨rangle_zero_vec, c4_center_ray true true envA 1 ⟨0, 0⟩ 5 rangle_zero_vec⟩

/-- C3 (amended): in the worked example (FoV 180, 2x2 viewport, mono, pixel
(0, 0), viewport_mid (1, 1)) the sample at the unjittered pixel corner
(jitter offset (0, 0), as the spec example computes) has rangle > rmax and
is excluded, so with such jitter draws the pixel accumulates zero color and
zero alpha; samples with other jitter offsets in [0, 1)^2 may instead fall
inside the FoV. -/
theorem c3_zero_jitter_excluded :
    (∀ s : ℕ, rmaxVal <
      rangleOf (sampleRd envA 0 (vmidOf false envA) (rppOf false envA) s)) ∧
    (camera_dome_master envA).col = Vec3.zero ∧
    (camera_dome_master envA).alpha = 0 ∧
    (camera_dome_master envA).events = [Event.accumulateCall Vec3.zero 0] := by
  have hdl : domeLoop false false envA =
      (sampleIter false false envA 0 0 (vmidOf false envA)
        (rppOf false envA))^[envA.aa_samples] (initState (randseedOf envA)) := rfl
  have hle := loop_excluded false false envA 0 0 (vmidOf false envA)
    (rppOf false envA) hallA envA.aa_samples (initState (randseedOf envA))
  have hcol : (domeLoop false false envA).col = Vec3.zero := by
    rw [hdl]; exact hle.1
  have halp : (domeLoop false false envA).alpha = 0 := by
    rw [hdl]; exact hle.2.1
  have hev : (domeLoop false false envA).events = [] := by
    rw [hdl]; exact hle.2.2
  refine ⟨rangleA_gt, hcol, halp, ?_⟩
  show (domeLoop false false envA).events ++
    [Event.accumulateCall (domeLoop false false envA).col
      (domeLoop false false envA).alpha] = [Event.accumulateCall Vec3.zero 0]
  rw [hcol, halp, hev]
  rfl

/-- C3 counterexample: the jitter offset (9/10, 9/10) lies in [0, 1)^2 yet
the resulting sample for pixel (0, 0) of the 2x2 example has rangle < rmax,
is not excluded, and submits a trace call — refuting the claim that every
jitter offset in [0, 1)^2 yields rangle > rmax and exclusion. -/
theorem c3_zero_jitter_excluded_cex :
    (0 : ℝ) ≤ 9 / 10 ∧ (9 / 10 : ℝ) < 1 ∧
    rangleOf (sampleRd envB 0 (vmidOf false envB) (rppOf false envB) 0) <
      rmaxVal ∧
    (sampleIter false false envB 0 0 (vmidOf false envB) (rppOf false envB)
      (initState 0)).events ≠ (initState 0).events := by
  refine ⟨by norm_num, by norm_num, rangleB_lt 0, ?_⟩
  rw [sampleIter_included false false envB 0 0 (vmidOf false envB)
    (rppOf false envB) (initState 0) (rangleB_lt 0)]
  simp [initState]

/-- C5: for an in-FoV sample with rangle > 0, the per-axis radians-per-pixel
factors are (pi/180) * fov / viewport_size, `rd` is the offset from the
viewport midpoint scaled componentwise by them, `rangle` is the Euclidean
norm of `rd`, and the generated ray direction is the equidistant fisheye
mapping right*sin(rangle)*rd.x/rangle + up*sin(rangle)*rd.y/rangle +
forward*cos(rangle). -/
theorem c5_equidistant_mapping (stereo : Bool) (env : Env) (es : ℝ)
    (rd : Vec2) (s : ℕ) (fov : ℝ) (vs vidx vmid : Vec2)
    (h0 : 0 < rangleOf rd) (hfov : rangleOf rd < rmaxVal) :
    radperpixOf fov vs =
      ⟨Real.pi / 180 * fov / vs.x, Real.pi / 180 * fov / vs.y⟩ ∧
    rdOf vidx vmid (radperpixOf fov vs) =
      ⟨(vidx.x - vmid.x) * (Real.pi / 180 * fov / vs.x),
       (vidx.y - vmid.y) * (Real.pi / 180 * fov / vs.y)⟩ ∧
    rangleOf rd = Real.sqrt (rd.x ^ 2 + rd.y ^ 2) ∧
    (sampleRay stereo false env es rd s).2.1 =
      (Real.sin (rangleOf rd) * rd.x / rangleOf rd) • env.cam_U +
      (Real.sin (rangleOf rd) * rd.y / rangleOf rd) • env.cam_V +
      Real.cos (rangleOf rd) • env.cam_W := by
  refine ⟨rfl, rfl, rfl, ?_⟩
  rw [sampleRay_dir_nodof stereo env es rd s (ne_of_gt h0)]
  ext <;> simp <;> ring

/-- C5 witness: at the radian offset (1, 0) the angular distance is 1, which
is positive and within rmax, and the generated direction is the fisheye
mapping value at that offset. -/
theorem c5_equidistant_mapping_witness :
    0 < rangleOf ⟨1, 0⟩ ∧ rangleOf ⟨1, 0⟩ < rmaxVal ∧
    (sampleRay false false envA 0 ⟨1, 0⟩ 3).2.1 =
      (Real.sin (rangleOf ⟨1, 0⟩) * 1 / rangleOf ⟨1, 0⟩) • envA.cam_U +
      (Real.sin (rangleOf ⟨1, 0⟩) * 0 / rangleOf ⟨1, 0⟩) • envA.cam_V +
      Real.cos (rangleOf ⟨1, 0⟩) • envA.cam_W := by
  have h0 : 0 < rangleOf ⟨1, 0⟩ := by rw [rangle_unit_x]; norm_num
  have h1 : rangleOf ⟨1, 0⟩ < rmaxVal := by rw [rangle_unit_x]; exact one_lt_rmax
  exact ⟨h0, h1,
    (c5_equidistant_mapping false envA 0 ⟨1, 0⟩ 3 180 ⟨2, 2⟩ ⟨0, 0⟩ ⟨1, 1⟩
      h0 h1).2.2.2⟩

/-- C6: the fisheye mapping is radially symmetric — for an orthonormal
camera basis and two in-FoV offsets of equal positive norm, both generated
directions make the same angle with the forward axis (dot product with
`cam_W` equal to cos rangle), and each direction's projection onto the
(right, up) plane is a positive scalar multiple of its own `rd`, so its
azimuth matches the azimuth of `rd` in pixel space. -/
theorem c6_radial_symmetry (env : Env) (es1 es2 : ℝ) (s1 s2 : ℕ)
    (rd1 rd2 : Vec2)
    (horth : OrthonormalBasis env.cam_U env.cam_V env.cam_W)
    (h0 : 0 < rangleOf rd1) (hfov : rangleOf rd1 < rmaxVal)
    (heq : rangleOf rd1 = rangleOf rd2) :
    dotV3 (sampleRay false false env es1 rd1 s1).2.1 env.cam_W =
      Real.cos (rangleOf rd1) ∧
    dotV3 (sampleRay false false env es2 rd2 s2).2.1 env.cam_W =
      Real.cos (rangleOf rd1) ∧
    (∃ c : ℝ, 0 < c ∧
      dotV3 (sampleRay false false env es1 rd1 s1).2.1 env.cam_U = c * rd1.x ∧
      dotV3 (sampleRay false false env es1 rd1 s1).2.1 env.cam_V = c * rd1.y) ∧
    (∃ c : ℝ, 0 < c ∧
      dotV3 (sampleRay false false env es2 rd2 s2).2.1 env.cam_U = c * rd2.x ∧
      dotV3 (sampleRay false false env es2 rd2 s2).2.1 env.cam_V = c * rd2.y) := by
  obtain ⟨hUU, hVV, hWW, hUV, hUW, hVW⟩ := horth
  have hVU : dotV3 env.cam_V env.cam_U = 0 := by rw [dotV3_comm]; exact hUV
  have hWU : dotV3 env.cam_W env.cam_U = 0 := by rw [dotV3_comm]; exact hUW
  have hWV : dotV3 env.cam_W env.cam_V = 0 := by rw [dotV3_comm]; exact hVW
  have h02 : 0 < rangleOf rd2 := heq ▸ h0
  have hd1 := sampleRay_dir_nodof false env es1 rd1 s1 (ne_of_gt h0)
  have hd2 := sampleRay_dir_nodof false env es2 rd2 s2 (ne_of_gt h02)
  have hltpi : rangleOf rd1 < Real.pi := by
    rw [rmax_eq] at hfov
    linarith [Real.pi_pos]
  have hsin : 0 < Real.sin (rangleOf rd1) :=
    Real.sin_pos_of_pos_of_lt_pi h0 hltpi
  have hsin2 : 0 < Real.sin (rangleOf rd2) := heq ▸ hsin
  refine ⟨?_, ?_, ?_, ?_⟩
  · rw [hd1, dotV3_comb, hUW, hVW, hWW]
    ring
  · rw [hd2, dotV3_comb, hUW, hVW, hWW, ← heq]
    ring
  · refine ⟨Real.sin (rangleOf rd1) / rangleOf rd1, div_pos hsin h0, ?_, ?_⟩
    · rw [hd1, dotV3_comb, hUU, hVU, hWU]
      ring
    · rw [hd1, dotV3_comb, hUV, hVV, hWV]
      ring
  · refine ⟨Real.sin (rangleOf rd2) / rangleOf rd2, div_pos hsin2 h02, ?_, ?_⟩
    · rw [hd2, dotV3_comb, hUU, hVU, hWU]
      ring
    · rw [hd2, dotV3_comb, hUV, hVV, hWV]
      ring

/-- C6 witness: the standard basis of `envA` is orthonormal, the offsets
(1, 0) and (0, 1) have equal norm 1 inside the FoV, and the radial-symmetry
conclusions hold for them. -/
theorem c6_radial_symmetry_witness :
    OrthonormalBasis envA.cam_U envA.cam_V envA.cam_W ∧
    0 < rangleOf ⟨1, 0⟩ ∧ rangleOf ⟨1, 0⟩ < rmaxVal ∧
    rangleOf ⟨1, 0⟩ = rangleOf ⟨0, 1⟩ ∧
    (dotV3 (sampleRay false false envA 2 ⟨1, 0⟩ 11).2.1 envA.cam_W =
        Real.cos (rangleOf ⟨1, 0⟩) ∧
      dotV3 (sampleRay false false envA 3 ⟨0, 1⟩ 12).2.1 envA.cam_W =
        Real.cos (rangleOf ⟨1, 0⟩) ∧
      (∃ c : ℝ, 0 < c ∧
        dotV3 (sampleRay false false envA 2 ⟨1, 0⟩ 11).2.1 envA.cam_U =
          c * (1 : ℝ) ∧
        dotV3 (sampleRay false false envA 2 ⟨1, 0⟩ 11).2.1 envA.cam_V =
          c * (0 : ℝ)) ∧
      (∃ c : ℝ, 0 < c ∧
        dotV3 (sampleRay false false envA 3 ⟨0, 1⟩ 12).2.1 envA.cam_U =
          c * (0 : ℝ) ∧
        dotV3 (sampleRay false false envA 3 ⟨0, 1⟩ 12).2.1 envA.cam_V =
          c * (1 : ℝ))) := by
  have horth : OrthonormalBasis envA.cam_U envA.cam_V envA.cam_W := by
    refine ⟨?_, ?_, ?_, ?_, ?_, ?_⟩ <;> norm_num [dotV3, envA]
  have h0 : 0 < rangleOf ⟨1, 0⟩ := by rw [rangle_unit_x]; norm_num
  have h1 : rangleOf ⟨1, 0⟩ < rmaxVal := by rw [rangle_unit_x]; exact one_lt_rmax
  have heq : rangleOf ⟨1, 0⟩ = rangleOf ⟨0, 1⟩ := by
    rw [rangle_unit_x, rangle_unit_y]
  exact ⟨horth, h0, h1, heq,
    c6_radial_symmetry envA 2 3 11 12 ⟨1, 0⟩ ⟨0, 1⟩ horth h0 h1 heq⟩

/-- C7: in the variant with stereo and DOF both disabled, the origin of
every traced ray equals the camera position, for every pixel and sample. -/
theorem c7_origin_is_campos (env : Env) (o d : Vec3)
    (h : Event.traceCall o d ∈ (camera_dome_master env).events) :
    o = env.cam_pos := by
  have hev : (camera_dome_master env).events =
      (domeLoop false false env).events ++
        [Event.accumulateCall (domeLoop false false env).col
          (domeLoop false false env).alpha] := rfl
  rw [hev] at h
  rcases List.mem_append.1 h with h1 | h2
  · have hdl : domeLoop false false env =
        (sampleIter false false env (stereoSetup false env).2.1
          (stereoSetup false env).2.2 (vmidOf false env)
          (rppOf false env))^[env.aa_samples] (initState (randseedOf env)) := rfl
    rw [hdl] at h1
    rcases loop_trace_origin env (stereoSetup false env).2.1
      (stereoSetup false env).2.2 (vmidOf false env) (rppOf false env)
      env.aa_samples (initState (randseedOf env)) o d h1 with hmem | hO
    · simp [initState] at hmem
    · exact hO
  · simp at h2

/-- C7 witness: in `envC` the center pixel submits a trace call whose origin
is the camera position. -/
theorem c7_origin_is_campos_witness :
    Event.traceCall envC.cam_pos envC.cam_W ∈ (camera_dome_master envC).events ∧
    envC.cam_pos = envC.cam_pos :=
  ⟨envC_trace_mem,
    c7_origin_is_campos envC envC.cam_pos envC.cam_W envC_trace_mem⟩

/-- C8 (amended): the per-pixel seed is the 4-round hash of
`frame_width * global_pixel_y + pixel_x` combined with the frame counter;
two runs agreeing on pixel coordinate, frame width and frame counter get
identical seeds, and with the same draw routine the identical sequence of
seed states; a different frame counter usually, but not always, changes the
seed (the 32-bit hash can collide). -/
theorem c8_seed_hash_determinism (env1 env2 : Env)
    (hdx : env1.launch_dim_x = env2.launch_dim_x)
    (hix : env1.launch_index_x = env2.launch_index_x)
    (hiy : env1.launch_index_y = env2.launch_index_y)
    (hsf : env1.subframe = env2.subframe) :
    randseedOf env1 =
      tea4 (env1.launch_dim_x * env1.launch_index_y + env1.launch_index_x)
        env1.subframe ∧
    randseedOf env1 = randseedOf env2 ∧
    (env1.jitter = env2.jitter →
      ∀ k : ℕ, (seedAdvance env1)^[k] (randseedOf env1) =
        (seedAdvance env2)^[k] (randseedOf env2)) := by
  have hseed : randseedOf env1 = randseedOf env2 := by
    rw [randseedOf, randseedOf, hdx, hix, hiy, hsf]
  refine ⟨rfl, hseed, ?_⟩
  intro hj k
  have hadv : seedAdvance env1 = seedAdvance env2 := by
    funext s
    rw [seedAdvance, seedAdvance, hj]
  rw [hadv, hseed]

/-- C8 witness: a run agreeing with itself on pixel, frame width and frame
counter reproduces its own seed and seed-state sequence. -/
theorem c8_seed_hash_determinism_witness :
    randseedOf envA =
      tea4 (envA.launch_dim_x * envA.launch_index_y + envA.launch_index_x)
        envA.subframe ∧
    randseedOf envA = randseedOf envA ∧
    (envA.jitter = envA.jitter →
      ∀ k : ℕ, (seedAdvance envA)^[k] (randseedOf envA) =
        (seedAdvance envA)^[k] (randseedOf envA)) :=
  c8_seed_hash_determinism envA envA rfl rfl rfl rfl

/-- C8 counterexample: for pixel (0, 0) of a width-1 frame, the distinct
frame counters 26601 and 62756 hash to the same seed, so changing the frame
counter does not always change the per-pixel seed. -/
theorem c8_seed_hash_determinism_cex :
    envT1.launch_dim_x = envT2.launch_dim_x ∧
    envT1.launch_index_x = envT2.launch_index_x ∧
    envT1.launch_index_y = envT2.launch_index_y ∧
    envT1.subframe ≠ envT2.subframe ∧
    randseedOf envT1 = randseedOf envT2 := by
  refine ⟨rfl, rfl, rfl, by decide, by decide⟩

/-- C9: every invocation emits the accumulation call exactly once, after the
sample loop (the loop itself emits only trace calls); a pixel all of whose
samples fall outside the FoV still ends in one accumulation call with
exactly zero color and zero alpha, in all four variants. -/
theorem c9_accumulate_exactly_once (stereo dof : Bool) (env : Env) :
    (camera_dome_general stereo dof env).events =
      (domeLoop stereo dof env).events ++
        [Event.accumulateCall (domeLoop stereo dof env).col
          (domeLoop stereo dof env).alpha] ∧
    (∀ e ∈ (domeLoop stereo dof env).events, isAccum e = false) ∧
    ((∀ s : ℕ, rmaxVal ≤ rangleOf (sampleRd env (stereoSetup stereo env).2.1
        (vmidOf stereo env) (rppOf stereo env) s)) →
      (camera_dome_general stereo dof env).events =
        [Event.accumulateCall Vec3.zero 0]) := by
  have hdl : domeLoop stereo dof env =
      (sampleIter stereo dof env (stereoSetup stereo env).2.1
        (stereoSetup stereo env).2.2 (vmidOf stereo env)
        (rppOf stereo env))^[env.aa_samples] (initState (randseedOf env)) := rfl
  refine ⟨rfl, ?_, ?_⟩
  · rw [hdl]
    exact loop_noaccum stereo dof env (stereoSetup stereo env).2.1
      (stereoSetup stereo env).2.2 (vmidOf stereo env) (rppOf stereo env)
      env.aa_samples (initState (randseedOf env)) (by simp [initState])
  · intro hall
    have hle := loop_excluded stereo dof env (stereoSetup stereo env).2.1
      (stereoSetup stereo env).2.2 (vmidOf stereo env) (rppOf stereo env)
      hall env.aa_samples (initState (randseedOf env))
    show (domeLoop stereo dof env).events ++
      [Event.accumulateCall (domeLoop stereo dof env).col
        (domeLoop stereo dof env).alpha] = [Event.accumulateCall Vec3.zero 0]
    rw [hdl, hle.1, hle.2.1, hle.2.2]
    rfl

/-- C9 witness: in `envA` every sample is out of FoV, yet the kernel still
emits exactly one accumulation call, of zero color and zero alpha. -/
theorem c9_accumulate_exactly_once_witness :
    (camera_dome_general false false envA).events =
      [Event.accumulateCall Vec3.zero 0] :=
  (c9_accumulate_exactly_once false false envA).2.2 (fun s => hallA s)

/-- C10: in the DOF-disabled variants one jitter draw advances the seed per
loop iteration, before the FoV test, so the seed state after k iterations is
the k-fold jitter advance of the initial seed regardless of which samples
were excluded; over the whole loop exactly `aa_samples` draws occur. -/
theorem c10_jitter_advances_seed (stereo : Bool) (env : Env) :
    (∀ (vidxY : ℕ) (es : ℝ) (vmid rpp : Vec2) (st : LoopState) (k : ℕ),
      ((sampleIter stereo false env vidxY es vmid rpp)^[k] st).seed =
        (seedAdvance env)^[k] st.seed) ∧
    (domeLoop stereo false env).seed =
      (seedAdvance env)^[env.aa_samples] (randseedOf env) := by
  refine ⟨fun vidxY es vmid rpp st k =>
    loop_seed_nodof stereo env vidxY es vmid rpp k st, ?_⟩
  have hdl : domeLoop stereo false env =
      (sampleIter stereo false env (stereoSetup stereo env).2.1
        (stereoSetup stereo env).2.2 (vmidOf stereo env)
        (rppOf stereo env))^[env.aa_samples] (initState (randseedOf env)) := rfl
  rw [hdl]
  exact loop_seed_nodof stereo env (stereoSetup stereo env).2.1
    (stereoSetup stereo env).2.2 (vmidOf stereo env) (rppOf stereo env)
    env.aa_samples (initState (randseedOf env))

end DomeCam
